import Mathlib

/-!
Verification of the a2p entity-hierarchy enforcement example
(`examples/sdk/python/10-entity-hierarchy/main.py`).

The Python module is embedded shallowly:

* Python values that flow through the rules in this module (rule values,
  proposed `new_value`s and policy payloads) are JSON-like scalars —
  booleans, ints, strings — or flat lists of scalars; nested lists never
  occur in the module, so `Value` is a scalar-or-flat-list type.
* Python's numeric tower is modelled by `Int`; `bool` is a subtype of
  `int` in Python (`isinstance(True, int)` holds, `True == 1`), so the
  numeric view `asNum` maps booleans to 0/1.  Floats do not occur in the
  module.  Comparing a number with a non-number raises `TypeError` in
  Python; such comparisons are outside the model (`pyLt` returns false
  there, and the guarding `isinstance` checks of the source are kept).
* The module-level mutable dict `entities` becomes an explicit
  association-list parameter `es : EntityMap` threaded through every
  function; `dict.get` is `lookupEntity`.
* `get_ancestry`'s unbounded `while` loop becomes a fuel-indexed
  recursion `ancestryGo`; `none` means the fuel ran out, i.e. the walk
  had not terminated after `fuel` steps.  Python truthiness of
  `current.parent` (None and the empty string are falsy) is `parentLink`.
* The result dict of `compute_effective_policies` is modelled by its
  lookup function `String → Option EffectivePolicy` (insertion order is
  only used for printing in the demo, never by the contract).
* The result dicts `{"allowed": bool, "reason"?: str}` of
  `validate_policy_change` become the structure `VResult`, an absent
  `"reason"` key being `none`.
* `depth` is `Nat`: the spec fixes it as the distance from the root.
-/

/-- A JSON-like scalar as used by the example: Python bool, int or str. -/
inductive Scalar where
  | bool (b : Bool)
  | num (n : Int)
  | str (s : String)
deriving DecidableEq, Repr

/-- A Python value of the module: a scalar or a flat list of scalars. -/
inductive Value where
  | scalar (s : Scalar)
  | list (xs : List Scalar)
deriving DecidableEq, Repr

/-- Numeric view of a scalar: Python treats `bool` as an `int` subtype
(`isinstance(True, int)`, `True == 1`), strings are not numeric. -/
def asNumS : Scalar → Option Int
  | .bool b => some (if b then 1 else 0)
  | .num n => some n
  | .str _ => none

/-- Python `==` on scalars: numbers compare by value across bool/int,
strings by content, number-versus-string is false. -/
def scalarEq : Scalar → Scalar → Bool
  | .str a, .str b => a == b
  | a, b =>
    match asNumS a, asNumS b with
    | some x, some y => x == y
    | _, _ => false

/-- Python `==` on two lists of scalars: elementwise, equal lengths. -/
def scalarListEq : List Scalar → List Scalar → Bool
  | [], [] => true
  | x :: xs, y :: ys => scalarEq x y && scalarListEq xs ys
  | _, _ => false

/-- Python `==` on module values; a list never equals a scalar. -/
def pyEq : Value → Value → Bool
  | .scalar a, .scalar b => scalarEq a b
  | .list a, .list b => scalarListEq a b
  | _, _ => false

/-- `isinstance(v, (int, float))`: true for Python ints and bools. -/
def isNumeric : Value → Bool
  | .scalar (.num _) => true
  | .scalar (.bool _) => true
  | _ => false

/-- `isinstance(v, list)`. -/
def isList : Value → Bool
  | .list _ => true
  | _ => false

/-- Numeric view of a module value (lists are not numeric). -/
def asNum : Value → Option Int
  | .scalar s => asNumS s
  | .list _ => none

/-- Python `<` restricted to numbers; a number-versus-non-number
comparison raises `TypeError` in Python and is outside the model. -/
def pyLt (a b : Value) : Bool :=
  match asNum a, asNum b with
  | some x, some y => decide (x < y)
  | _, _ => false

/-- Python `>` restricted to numbers, see `pyLt`. -/
def pyGt (a b : Value) : Bool :=
  pyLt b a

/-- Python `str()` of a scalar. -/
def scalarStr : Scalar → String
  | .bool b => if b then "True" else "False"
  | .num n => toString n
  | .str s => s

/-- `json.dumps` of a scalar (string escaping is outside the model:
no string in the module needs escaping). -/
def jsonDumpsScalar : Scalar → String
  | .bool b => if b then "true" else "false"
  | .num n => toString n
  | .str s => "\"" ++ s ++ "\""

/-- Concatenate with a separator, as Python `sep.join(items)`. -/
def joinSep (sep : String) : List String → String
  | [] => ""
  | [x] => x
  | x :: xs => x ++ sep ++ joinSep sep xs

/-- `json.dumps` of a module value. -/
def jsonDumps : Value → String
  | .scalar s => jsonDumpsScalar s
  | .list xs => "[" ++ joinSep ", " (xs.map jsonDumpsScalar) ++ "]"

/-- Python `str()` of a module value as interpolated into the min/max
reasons; for the list corner (never numeric in practice) the JSON
rendering stands in for Python's repr. -/
def pyStr : Value → String
  | .scalar s => scalarStr s
  | .list xs => "[" ++ joinSep ", " (xs.map jsonDumpsScalar) ++ "]"

/-- `", ".join(invalid_items)` of the subset reason; the module only
ever joins string scalars (Python would raise on non-strings, which is
outside the model — non-strings render via `scalarStr`). -/
def joinItems (xs : List Scalar) : String :=
  joinSep ", " (xs.map scalarStr)

/-- `EnforcedRule` dataclass. -/
structure EnforcedRule where
  id : String
  path : String
  value : Value
  enforcement : String
  reason : String
deriving DecidableEq, Repr

/-- `EntityProfile` dataclass. -/
structure EntityProfile where
  id : String
  profile_type : String
  display_name : String
  entity_type : String
  description : Option String
  parent : Option String
  children : List String
  inherit_policies : Bool
  depth : Nat
  enforced_rules : List EnforcedRule
  policies : List (String × Value)
  direct_members : List String
  admins : List String
deriving DecidableEq, Repr

/-- `EffectivePolicy` dataclass. -/
structure EffectivePolicy where
  value : Value
  source : String
  enforcement : String
  locked : Bool
deriving DecidableEq, Repr

/-- Result dict of `validate_policy_change`: `{"allowed": …}` with an
optional `"reason"` key. -/
structure VResult where
  allowed : Bool
  reason : Option String
deriving DecidableEq, Repr

/-- The module-level `entities` dict, made explicit: an association
list with the first binding of a key the authoritative one. -/
def EntityMap := List (String × EntityProfile)

/-- `entities.get(id)`. -/
def lookupEntity (es : EntityMap) (id : String) : Option EntityProfile :=
  match es with
  | [] => none
  | (k, e) :: rest => if k = id then some e else lookupEntity rest id

/-- Truthiness of `current.parent` in the `while` guard: `None` and the
empty string are falsy in Python. -/
def parentLink (e : EntityProfile) : Option String :=
  match e.parent with
  | none => none
  | some p => if p = "" then none else some p

/-- The `while current and current.parent` loop of `get_ancestry`,
indexed by fuel; `none` means the loop had not finished within `fuel`
iterations. -/
def ancestryGo (es : EntityMap) : Nat → Option EntityProfile → List String → Option (List String)
  | _, none, acc => some acc
  | fuel, some c, acc =>
    match parentLink c with
    | none => some acc
    | some p =>
      match fuel with
      | 0 => none
      | Nat.succ fuel' => ancestryGo es fuel' (lookupEntity es p) (acc ++ [p])

/-- `get_ancestry(entity_id)`: the list `[entity_id, parent, …, root]`
(leaf to root), `none` when the walk did not finish within `fuel`. -/
def get_ancestry (es : EntityMap) (entity_id : String) (fuel : Nat) : Option (List String) :=
  ancestryGo es fuel (lookupEntity es entity_id) [entity_id]

/-- A lookup-function model of the Python result dict. -/
def PolicyMap := String → Option EffectivePolicy

/-- The empty dict. -/
def emptyPolicyMap : PolicyMap := fun _ => none

/-- `result[path] = eff` as seen by later lookups. -/
def setKey (m : PolicyMap) (k : String) (v : EffectivePolicy) : PolicyMap :=
  fun q => if q = k then some v else m q

/-- The `EffectivePolicy(...)` constructor call of
`compute_effective_policies`. -/
def mkEff (e : EntityProfile) (r : EnforcedRule) : EffectivePolicy :=
  { value := r.value
    source := e.display_name
    enforcement := r.enforcement
    locked := r.enforcement == "locked" }

/-- One iteration of the `for ancestor_id in reversed(ancestry)` loop:
skip a missing entity or an empty rule list, else write every rule. -/
def applyEntity (es : EntityMap) (m : PolicyMap) (a : String) : PolicyMap :=
  match lookupEntity es a with
  | none => m
  | some e =>
    if e.enforced_rules.isEmpty then m
    else e.enforced_rules.foldl (fun m r => setKey m r.path (mkEff e r)) m

/-- The body of `compute_effective_policies` once the ancestry is in
hand: process ancestors from root to leaf. -/
def computeOverAncestry (es : EntityMap) (anc : List String) : PolicyMap :=
  anc.reverse.foldl (applyEntity es) emptyPolicyMap

/-- `compute_effective_policies(entity_id)`; `none` only when the
ancestry walk ran out of fuel. -/
def compute_effective_policies (es : EntityMap) (entity_id : String) (fuel : Nat) :
    Option PolicyMap :=
  (get_ancestry es entity_id fuel).map (computeOverAncestry es)

/-- The per-rule body of the inner `for rule in entity.enforced_rules`
loop of `validate_policy_change`: `some reason` when the rule denies the
change, `none` when it lets it pass. -/
def checkRule (path : String) (e : EntityProfile) (r : EnforcedRule) (new_value : Value) :
    Option String :=
  if r.path ≠ path then none
  else if r.enforcement = "locked" then
    if pyEq new_value r.value = false then
      some ("\"" ++ path ++ "\" is locked by " ++ e.display_name ++ ": " ++ r.reason)
    else none
  else if r.enforcement = "min" then
    if isNumeric new_value && pyLt new_value r.value then
      some ("\"" ++ path ++ "\" minimum is " ++ pyStr r.value ++ " (set by " ++ e.display_name ++ ")")
    else none
  else if r.enforcement = "max" then
    if isNumeric new_value && pyGt new_value r.value then
      some ("\"" ++ path ++ "\" maximum is " ++ pyStr r.value ++ " (set by " ++ e.display_name ++ ")")
    else none
  else if r.enforcement = "subset" then
    match new_value, r.value with
    | .list nl, .list pl =>
      let invalid_items := nl.filter (fun v => !(pl.any (fun u => scalarEq v u)))
      if invalid_items.isEmpty then none
      else
        some ("\"" ++ path ++ "\" must be subset of " ++ jsonDumps r.value ++ ". Invalid: "
          ++ joinItems invalid_items)
    | _, _ => none
  else none

/-- The inner rule loop: first denying rule wins. -/
def checkEntityRules (path : String) (e : EntityProfile) (new_value : Value) :
    List EnforcedRule → Option String
  | [] => none
  | r :: rs =>
    match checkRule path e r new_value with
    | some reason => some reason
    | none => checkEntityRules path e new_value rs

/-- The outer `for ancestor_id in ancestry` loop of
`validate_policy_change`: ancestry is iterated in the order produced by
`get_ancestry`, i.e. from the entity itself towards the root; the entity
itself is skipped, missing entities and empty rule lists are skipped,
and the first denial short-circuits. -/
def scanAncestry (es : EntityMap) (entity_id path : String) (new_value : Value) :
    List String → VResult
  | [] => { allowed := true, reason := none }
  | a :: rest =>
    if a = entity_id then scanAncestry es entity_id path new_value rest
    else
      match lookupEntity es a with
      | none => scanAncestry es entity_id path new_value rest
      | some e =>
        if e.enforced_rules.isEmpty then scanAncestry es entity_id path new_value rest
        else
          match checkEntityRules path e new_value e.enforced_rules with
          | some reason => { allowed := false, reason := some reason }
          | none => scanAncestry es entity_id path new_value rest

/-- `validate_policy_change(entity_id, path, new_value)`; `none` only
when the ancestry walk ran out of fuel. -/
def validate_policy_change (es : EntityMap) (entity_id path : String) (new_value : Value)
    (fuel : Nat) : Option VResult :=
  (get_ancestry es entity_id fuel).map (scanAncestry es entity_id path new_value)

/-! ## Derived characterisations of the two walks -/

/-- Whether the entity stored under `a` has some enforced rule at `P`. -/
def hasRuleAt (es : EntityMap) (a P : String) : Bool :=
  match lookupEntity es a with
  | none => false
  | some e => e.enforced_rules.any (fun r => r.path == P)

/-- The last rule of a rule list whose path is `P` — the one whose dict
write survives in `compute_effective_policies`. -/
def lastRuleAtList : List EnforcedRule → String → Option EnforcedRule
  | [], _ => none
  | r :: rs, P =>
    match lastRuleAtList rs P with
    | some r' => some r'
    | none => if r.path = P then some r else none

/-- The effective policy the contract predicts at `P`: the ancestry list
is leaf-to-root, so the first chain member with a rule at `P` is the one
closest to the leaf, and within it the last such rule survives. -/
def effAt (es : EntityMap) : List String → String → Option EffectivePolicy
  | [], _ => none
  | a :: rest, P =>
    if hasRuleAt es a P then
      match lookupEntity es a with
      | none => none
      | some e => (lastRuleAtList e.enforced_rules P).map (mkEff e)
    else effAt es rest P

theorem lastRuleAtList_isSome_iff (rs : List EnforcedRule) (P : String) :
    (lastRuleAtList rs P).isSome ↔ ∃ r ∈ rs, r.path = P := by
  induction rs with
  | nil => simp [lastRuleAtList]
  | cons r rs ih =>
    cases h : lastRuleAtList rs P with
    | some r' =>
      simp only [lastRuleAtList, h]
      have : ∃ x ∈ rs, x.path = P := by
        have := (ih).mp (by simp [h])
        exact this
      simp only [List.mem_cons]
      constructor
      · intro _
        obtain ⟨x, hx, hxP⟩ := this
        exact ⟨x, Or.inr hx, hxP⟩
      · intro _; simp
    | none =>
      simp only [lastRuleAtList, h]
      have hrs : ¬∃ x ∈ rs, x.path = P := by
        intro hx
        have := (ih).mpr hx
        simp [h] at this
      by_cases hp : r.path = P
      · simp only [if_pos hp]
        simp only [List.mem_cons]
        constructor
        · intro _; exact ⟨r, Or.inl rfl, hp⟩
        · intro _; simp
      · simp only [if_neg hp]
        simp only [List.mem_cons]
        constructor
        · intro hfalse; simp at hfalse
        · rintro ⟨x, hx | hx, hxP⟩
          · exact absurd (hx ▸ hxP) hp
          · exact absurd ⟨x, hx, hxP⟩ hrs

theorem checkEntityRules_eq_none_iff (path : String) (e : EntityProfile) (v : Value)
    (rs : List EnforcedRule) :
    checkEntityRules path e v rs = none ↔ ∀ r ∈ rs, checkRule path e r v = none := by
  induction rs with
  | nil => simp [checkEntityRules]
  | cons r rs ih =>
    cases h : checkRule path e r v with
    | some s => simp [checkEntityRules, h]
    | none => simp [checkEntityRules, h, ih]

theorem checkEntityRules_isSome_iff (path : String) (e : EntityProfile) (v : Value)
    (rs : List EnforcedRule) :
    (checkEntityRules path e v rs).isSome ↔ ∃ r ∈ rs, (checkRule path e r v).isSome := by
  induction rs with
  | nil => simp [checkEntityRules]
  | cons r rs ih =>
    cases h : checkRule path e r v with
    | some s => simp [checkEntityRules, h]
    | none => simp [checkEntityRules, h, ih]

theorem checkEntityRules_some_exists (path : String) (e : EntityProfile) (v : Value)
    (rs : List EnforcedRule) (reason : String)
    (h : checkEntityRules path e v rs = some reason) :
    ∃ r ∈ rs, checkRule path e r v = some reason := by
  induction rs with
  | nil => simp [checkEntityRules] at h
  | cons r rs ih =>
    cases hr : checkRule path e r v with
    | some s =>
      simp only [checkEntityRules, hr] at h
      exact ⟨r, List.mem_cons_self .., by rw [hr, h]⟩
    | none =>
      simp only [checkEntityRules, hr] at h
      obtain ⟨x, hx, hxs⟩ := ih h
      exact ⟨x, List.mem_cons_of_mem _ hx, hxs⟩

/-- The strict-ancestor denial predicate: some ancestor in `anc` other
than the entity itself holds a rule that rejects `new_value` at `path`. -/
def ExistsDenial (es : EntityMap) (entity_id path : String) (v : Value) (anc : List String) :
    Prop :=
  ∃ a ∈ anc, a ≠ entity_id ∧ ∃ e, lookupEntity es a = some e ∧
    ∃ r ∈ e.enforced_rules, (checkRule path e r v).isSome

theorem scanAncestry_allowed_false_iff (es : EntityMap) (entity_id path : String) (v : Value)
    (anc : List String) :
    (scanAncestry es entity_id path v anc).allowed = false ↔
      ExistsDenial es entity_id path v anc := by
  induction anc with
  | nil => simp [scanAncestry, ExistsDenial]
  | cons a rest ih =>
    simp only [scanAncestry]
    by_cases ha : a = entity_id
    · simp only [if_pos ha, ih, ExistsDenial, List.mem_cons]
      constructor
      · rintro ⟨x, hx, hxs⟩
        exact ⟨x, Or.inr hx, hxs⟩
      · rintro ⟨x, hx | hx, hne, hrest⟩
        · exact absurd (hx ▸ ha) hne
        · exact ⟨x, hx, hne, hrest⟩
    · simp only [if_neg ha]
      cases he : lookupEntity es a with
      | none =>
        simp only [ih, ExistsDenial, List.mem_cons]
        constructor
        · rintro ⟨x, hx, hxs⟩
          exact ⟨x, Or.inr hx, hxs⟩
        · rintro ⟨x, hx | hx, hne, e, hee, hrest⟩
          · rw [hx] at hee; rw [hee] at he; cases he
          · exact ⟨x, hx, hne, e, hee, hrest⟩
      | some e =>
        by_cases hemp : e.enforced_rules.isEmpty
        · simp only [if_pos hemp, ih, ExistsDenial, List.mem_cons]
          have hnil : e.enforced_rules = [] := List.isEmpty_iff.mp hemp
          constructor
          · rintro ⟨x, hx, hxs⟩
            exact ⟨x, Or.inr hx, hxs⟩
          · rintro ⟨x, hx | hx, hne, e', hee, r, hr, hrs⟩
            · rw [hx] at hee; rw [hee] at he; cases he
              rw [hnil] at hr; cases hr
            · exact ⟨x, hx, hne, e', hee, r, hr, hrs⟩
        · simp only [if_neg hemp]
          cases hc : checkEntityRules path e v e.enforced_rules with
          | some reason =>
            simp only [ExistsDenial, List.mem_cons]
            constructor
            · intro _
              obtain ⟨r, hr, hrs⟩ := checkEntityRules_some_exists path e v _ _ hc
              exact ⟨a, Or.inl rfl, ha, e, he, r, hr, by simp [hrs]⟩
            · intro _; trivial
          | none =>
            have hnone : ∀ r ∈ e.enforced_rules, checkRule path e r v = none :=
              (checkEntityRules_eq_none_iff path e v _).mp hc
            simp only [ih, ExistsDenial, List.mem_cons]
            constructor
            · rintro ⟨x, hx, hxs⟩
              exact ⟨x, Or.inr hx, hxs⟩
            · rintro ⟨x, hx | hx, hne, e', hee, r, hr, hrs⟩
              · rw [hx] at hee; rw [hee] at he
                cases he
                have := hnone r hr
                rw [this] at hrs; cases hrs
              · exact ⟨x, hx, hne, e', hee, r, hr, hrs⟩

theorem scanAncestry_all_pass (es : EntityMap) (entity_id path : String) (v : Value)
    (anc : List String)
    (h : ∀ a ∈ anc, a ≠ entity_id → ∀ e, lookupEntity es a = some e →
      ∀ r ∈ e.enforced_rules, checkRule path e r v = none) :
    scanAncestry es entity_id path v anc = { allowed := true, reason := none } := by
  induction anc with
  | nil => rfl
  | cons a rest ih =>
    have hrest : ∀ a ∈ rest, a ≠ entity_id → ∀ e, lookupEntity es a = some e →
        ∀ r ∈ e.enforced_rules, checkRule path e r v = none := by
      intro x hx
      exact h x (List.mem_cons_of_mem _ hx)
    simp only [scanAncestry]
    by_cases ha : a = entity_id
    · simp only [if_pos ha]; exact ih hrest
    · simp only [if_neg ha]
      cases he : lookupEntity es a with
      | none => exact ih hrest
      | some e =>
        by_cases hemp : e.enforced_rules.isEmpty
        · simp only [if_pos hemp]; exact ih hrest
        · simp only [if_neg hemp]
          have : checkEntityRules path e v e.enforced_rules = none :=
            (checkEntityRules_eq_none_iff path e v _).mpr
              (h a (List.mem_cons_self ..) ha e he)
          rw [this]
          exact ih hrest

theorem checkEntityRules_first (path : String) (e : EntityProfile) (v : Value)
    (rpre rpost : List EnforcedRule) (r : EnforcedRule) (reason : String)
    (hpre : ∀ x ∈ rpre, checkRule path e x v = none)
    (hr : checkRule path e r v = some reason) :
    checkEntityRules path e v (rpre ++ r :: rpost) = some reason := by
  induction rpre with
  | nil => simp [checkEntityRules, hr]
  | cons x xs ih =>
    have hx : checkRule path e x v = none := hpre x (List.mem_cons_self ..)
    simp only [List.cons_append, checkEntityRules, hx]
    exact ih fun y hy => hpre y (List.mem_cons_of_mem _ hy)

theorem scanAncestry_first_denial (es : EntityMap) (entity_id path : String) (v : Value)
    (pre post : List String) (a : String) (e : EntityProfile) (reason : String)
    (hpre : ∀ b ∈ pre, b ≠ entity_id → ∀ e', lookupEntity es b = some e' →
      ∀ r ∈ e'.enforced_rules, checkRule path e' r v = none)
    (ha : a ≠ entity_id)
    (he : lookupEntity es a = some e)
    (hc : checkEntityRules path e v e.enforced_rules = some reason) :
    scanAncestry es entity_id path v (pre ++ a :: post) =
      { allowed := false, reason := some reason } := by
  induction pre with
  | nil =>
    have hne : ¬e.enforced_rules.isEmpty := by
      intro hemp
      rw [List.isEmpty_iff.mp hemp] at hc
      simp [checkEntityRules] at hc
    simp only [List.nil_append, scanAncestry, if_neg ha, he, if_neg hne, hc]
  | cons b bs ih =>
    have hbs : ∀ x ∈ bs, x ≠ entity_id → ∀ e', lookupEntity es x = some e' →
        ∀ r ∈ e'.enforced_rules, checkRule path e' r v = none :=
      fun x hx => hpre x (List.mem_cons_of_mem _ hx)
    simp only [List.cons_append, scanAncestry]
    by_cases hb : b = entity_id
    · simp only [if_pos hb]; exact ih hbs
    · simp only [if_neg hb]
      cases hbe : lookupEntity es b with
      | none => exact ih hbs
      | some eb =>
        by_cases hemp : eb.enforced_rules.isEmpty
        · simp only [if_pos hemp]; exact ih hbs
        · simp only [if_neg hemp]
          have : checkEntityRules path eb v eb.enforced_rules = none :=
            (checkEntityRules_eq_none_iff path eb v _).mpr
              (hpre b (List.mem_cons_self ..) hb eb hbe)
          rw [this]
          exact ih hbs

theorem scanAncestry_denial_form (es : EntityMap) (entity_id path : String) (v : Value)
    (anc : List String) :
    scanAncestry es entity_id path v anc = { allowed := true, reason := none } ∨
      ∃ a ∈ anc, a ≠ entity_id ∧ ∃ e, lookupEntity es a = some e ∧ ∃ reason,
        checkEntityRules path e v e.enforced_rules = some reason ∧
        scanAncestry es entity_id path v anc = { allowed := false, reason := some reason } := by
  induction anc with
  | nil => exact Or.inl rfl
  | cons a rest ih =>
    simp only [scanAncestry]
    by_cases ha : a = entity_id
    · simp only [if_pos ha]
      rcases ih with h | ⟨x, hx, hxs⟩
      · exact Or.inl h
      · exact Or.inr ⟨x, List.mem_cons_of_mem _ hx, hxs⟩
    · simp only [if_neg ha]
      cases he : lookupEntity es a with
      | none =>
        rcases ih with h | ⟨x, hx, hxs⟩
        · exact Or.inl h
        · exact Or.inr ⟨x, List.mem_cons_of_mem _ hx, hxs⟩
      | some e =>
        by_cases hemp : e.enforced_rules.isEmpty
        · simp only [if_pos hemp]
          rcases ih with h | ⟨x, hx, hxs⟩
          · exact Or.inl h
          · exact Or.inr ⟨x, List.mem_cons_of_mem _ hx, hxs⟩
        · simp only [if_neg hemp]
          cases hc : checkEntityRules path e v e.enforced_rules with
          | some reason =>
            exact Or.inr ⟨a, List.mem_cons_self .., ha, e, he, reason, hc, rfl⟩
          | none =>
            rcases ih with h | ⟨x, hx, hxs⟩
            · exact Or.inl h
            · exact Or.inr ⟨x, List.mem_cons_of_mem _ hx, hxs⟩


theorem foldl_setKey_lookup (e : EntityProfile) (P : String) (rs : List EnforcedRule) :
    ∀ m : PolicyMap,
      (rs.foldl (fun m r => setKey m r.path (mkEff e r)) m) P =
        match lastRuleAtList rs P with
        | some r => some (mkEff e r)
        | none => m P := by
  induction rs with
  | nil => intro m; rfl
  | cons r rs ih =>
    intro m
    simp only [List.foldl_cons, lastRuleAtList]
    rw [ih]
    cases h : lastRuleAtList rs P with
    | some r' => rfl
    | none =>
      by_cases hp : r.path = P
      · subst hp
        simp [setKey]
      · rw [if_neg hp]
        show (if P = r.path then some (mkEff e r) else m P) = m P
        rw [if_neg fun hPe => hp hPe.symm]

theorem applyEntity_lookup (es : EntityMap) (m : PolicyMap) (a P : String) :
    (applyEntity es m a) P =
      match lookupEntity es a with
      | none => m P
      | some e =>
        match lastRuleAtList e.enforced_rules P with
        | some r => some (mkEff e r)
        | none => m P := by
  cases he : lookupEntity es a with
  | none => simp only [applyEntity, he]
  | some e =>
    by_cases hemp : e.enforced_rules.isEmpty
    · simp only [applyEntity, he, if_pos hemp]
      rw [List.isEmpty_iff.mp hemp]
      rfl
    · simp only [applyEntity, he, if_neg hemp]
      rw [foldl_setKey_lookup]

theorem foldr_applyEntity_lookup (es : EntityMap) (P : String) (anc : List String) :
    (anc.foldr (fun a m => applyEntity es m a) emptyPolicyMap) P = effAt es anc P := by
  induction anc with
  | nil => rfl
  | cons a rest ih =>
    rw [List.foldr_cons, applyEntity_lookup]
    cases he : lookupEntity es a with
    | none =>
      have hra : hasRuleAt es a P = false := by simp [hasRuleAt, he]
      simp only [effAt, hra, Bool.false_eq_true, if_false]
      exact ih
    | some e =>
      cases hl : lastRuleAtList e.enforced_rules P with
      | some r' =>
        have hra : hasRuleAt es a P = true := by
          obtain ⟨r, hr, hrP⟩ :=
            (lastRuleAtList_isSome_iff e.enforced_rules P).mp (by simp [hl])
          simp only [hasRuleAt, he]
          exact List.any_eq_true.mpr ⟨r, hr, by simpa using hrP⟩
        simp only [effAt, hra, if_true, he, hl]
        rfl
      | none =>
        have hra : hasRuleAt es a P = false := by
          cases hh : hasRuleAt es a P
          · rfl
          · exfalso
            simp only [hasRuleAt, he] at hh
            obtain ⟨r, hr, hrP⟩ := List.any_eq_true.mp hh
            have hs : (lastRuleAtList e.enforced_rules P).isSome :=
              (lastRuleAtList_isSome_iff e.enforced_rules P).mpr
                ⟨r, hr, by simpa using hrP⟩
            rw [hl] at hs; cases hs
        simp only [effAt, hra, Bool.false_eq_true, if_false, hl]
        exact ih

theorem computeOverAncestry_lookup (es : EntityMap) (anc : List String) (P : String) :
    computeOverAncestry es anc P = effAt es anc P := by
  have hfold : computeOverAncestry es anc =
      anc.foldr (fun a m => applyEntity es m a) emptyPolicyMap := by
    simp only [computeOverAncestry, List.foldl_reverse]
  rw [hfold]
  exact foldr_applyEntity_lookup es P anc

/-! ## Termination of the ancestry walk -/

/-- The ancestry walk finishes within some number of loop iterations. -/
def AncestryTerminates (es : EntityMap) (entity_id : String) : Prop :=
  ∃ n l, get_ancestry es entity_id n = some l

/-- The guard of `childDepthOk`: if the entity has a live parent link
and the parent is stored, the parent's depth is strictly smaller. -/
def childDepthOk (es : EntityMap) (e : EntityProfile) : Bool :=
  match parentLink e with
  | none => true
  | some p =>
    match lookupEntity es p with
    | none => true
    | some e2 => decide (e2.depth < e.depth)

def depthDecreasingAux (es : EntityMap) : List (String × EntityProfile) → Bool
  | [] => true
  | (_, e) :: rest => childDepthOk es e && depthDecreasingAux es rest

/-- The spec's tree invariant, `depth` = distance from root: every
stored entity's parent (when stored) has strictly smaller depth. -/
def depthDecreasing (es : EntityMap) : Bool :=
  depthDecreasingAux es es

theorem depthDecreasingAux_lookup (es : EntityMap) (l : List (String × EntityProfile))
    (hdd : depthDecreasingAux es l = true) (k : String) (e : EntityProfile)
    (hl : lookupEntity l k = some e) : childDepthOk es e = true := by
  induction l with
  | nil => cases hl
  | cons pr rest ih =>
    obtain ⟨k2, e2⟩ := pr
    simp only [depthDecreasingAux, Bool.and_eq_true] at hdd
    simp only [lookupEntity] at hl
    by_cases hk : k2 = k
    · rw [if_pos hk] at hl
      cases hl
      exact hdd.1
    · rw [if_neg hk] at hl
      exact ih hdd.2 hl

theorem depthDecreasing_lookup (es : EntityMap) (hdd : depthDecreasing es = true)
    (k : String) (e : EntityProfile) (hl : lookupEntity es k = some e) :
    childDepthOk es e = true :=
  depthDecreasingAux_lookup es es hdd k e hl

theorem ancestryGo_terminates (es : EntityMap) (hdd : depthDecreasing es = true) :
    ∀ (d : Nat) (cur : Option EntityProfile) (acc : List String),
      (∀ e, cur = some e → (∃ k, lookupEntity es k = some e) ∧ e.depth ≤ d) →
      ∃ n l, ancestryGo es n cur acc = some l := by
  intro d
  induction d with
  | zero =>
    intro cur acc hcur
    cases cur with
    | none => exact ⟨0, acc, rfl⟩
    | some e =>
      cases hp : parentLink e with
      | none => exact ⟨0, acc, by simp [ancestryGo, hp]⟩
      | some p =>
        cases he2 : lookupEntity es p with
        | none =>
          refine ⟨1, acc ++ [p], ?_⟩
          simp [ancestryGo, hp, he2]
        | some e2 =>
          exfalso
          obtain ⟨⟨k, hk⟩, hde⟩ := hcur e rfl
          have hok := depthDecreasing_lookup es hdd k e hk
          simp only [childDepthOk, hp, he2, decide_eq_true_eq] at hok
          omega
  | succ d ih =>
    intro cur acc hcur
    cases cur with
    | none => exact ⟨0, acc, rfl⟩
    | some e =>
      cases hp : parentLink e with
      | none => exact ⟨0, acc, by simp [ancestryGo, hp]⟩
      | some p =>
        cases he2 : lookupEntity es p with
        | none =>
          refine ⟨1, acc ++ [p], ?_⟩
          simp [ancestryGo, hp, he2]
        | some e2 =>
          obtain ⟨⟨k, hk⟩, hde⟩ := hcur e rfl
          have hok := depthDecreasing_lookup es hdd k e hk
          simp only [childDepthOk, hp, he2, decide_eq_true_eq] at hok
          obtain ⟨n, l, hn⟩ := ih (some e2) (acc ++ [p]) (by
            intro e3 he3
            cases he3
            exact ⟨⟨p, he2⟩, by omega⟩)
          refine ⟨n + 1, l, ?_⟩
          simpa [ancestryGo, hp, he2] using hn

theorem get_ancestry_terminates (es : EntityMap) (entity_id : String)
    (hdd : depthDecreasing es = true) : AncestryTerminates es entity_id := by
  cases hl : lookupEntity es entity_id with
  | none => exact ⟨0, [entity_id], by simp [get_ancestry, hl, ancestryGo]⟩
  | some e =>
    obtain ⟨n, l, hn⟩ := ancestryGo_terminates es hdd e.depth (some e) [entity_id]
      (by intro e2 he2; cases he2; exact ⟨⟨entity_id, hl⟩, le_refl _⟩)
    exact ⟨n, l, by simpa [get_ancestry, hl] using hn⟩

theorem mem_option_toList {α : Type} (o : Option α) (x : α) : x ∈ o.toList ↔ o = some x := by
  cases o <;> simp [Option.toList, eq_comm]

theorem checkRule_some_path (path : String) (e : EntityProfile) (r : EnforcedRule)
    (v : Value) (s : String) (h : checkRule path e r v = some s) : r.path = path := by
  by_contra hp
  simp [checkRule, hp] at h

/-! ## Concrete fixtures (the hierarchy built by the example's `main`) -/

def mkEntity (id display etype : String) (parent : Option String) (depth : Nat)
    (rules : List EnforcedRule) : EntityProfile :=
  { id := id, profile_type := "entity", display_name := display, entity_type := etype,
    description := none, parent := parent, children := [], inherit_policies := true,
    depth := depth, enforced_rules := rules, policies := [],
    direct_members := [], admins := [] }

def gdprRule : EnforcedRule :=
  { id := "gdpr-compliance", path := "policies.compliance.gdpr",
    value := Value.scalar (Scalar.bool true), enforcement := "locked",
    reason := "Legal requirement for EU operations" }

def residencyRule : EnforcedRule :=
  { id := "data-residency", path := "policies.data.residency",
    value := Value.list [Scalar.str "EU"], enforcement := "locked",
    reason := "Corporate data sovereignty policy" }

def retentionRule : EnforcedRule :=
  { id := "max-retention", path := "policies.data.retention.maxMonths",
    value := Value.scalar (Scalar.num 36), enforcement := "max",
    reason := "GDPR data minimization" }

def encryptionRule : EnforcedRule :=
  { id := "min-encryption", path := "policies.security.encryption.minBits",
    value := Value.scalar (Scalar.num 256), enforcement := "min",
    reason := "Security baseline" }

def modelsRule : EnforcedRule :=
  { id := "allowed-ai-models", path := "policies.ai.allowedModels",
    value := Value.list [Scalar.str "gpt-4", Scalar.str "claude-3", Scalar.str "gemini-pro"],
    enforcement := "subset", reason := "Only security-vetted models" }

def blocklistRule : EnforcedRule :=
  { id := "ai-blocklist", path := "policies.ai.blockedModels",
    value := Value.list [Scalar.str "legacy-gpt-*"], enforcement := "additive",
    reason := "Security team blocklist" }

def codeReviewRule : EnforcedRule :=
  { id := "code-review", path := "policies.development.codeReview",
    value := Value.scalar (Scalar.bool true), enforcement := "locked",
    reason := "Engineering quality standard" }

def ciRule : EnforcedRule :=
  { id := "ci-required", path := "policies.development.ciRequired",
    value := Value.scalar (Scalar.bool true), enforcement := "locked",
    reason := "Continuous integration mandatory" }

def trackingRule : EnforcedRule :=
  { id := "experiment-tracking", path := "policies.ml.experimentTracking",
    value := Value.scalar (Scalar.bool true), enforcement := "locked",
    reason := "ML reproducibility requirement" }

def acmeCorp : EntityProfile := mkEntity "acme-corp" "ACME Corporation" "organization" none 0
  [gdprRule, residencyRule, retentionRule, encryptionRule, modelsRule, blocklistRule]

def acmeEngineering : EntityProfile := mkEntity "acme-engineering" "Engineering" "department"
  (some "acme-corp") 1 [codeReviewRule, ciRule]

def acmeMlTeam : EntityProfile := mkEntity "acme-ml-team" "ML Team" "team"
  (some "acme-engineering") 2 [trackingRule]

def acmeMap : EntityMap :=
  [("acme-corp", acmeCorp), ("acme-engineering", acmeEngineering), ("acme-ml-team", acmeMlTeam)]

/-- Malformed data: two entities whose parent pointers form a 2-cycle. -/
def cycA : EntityProfile := mkEntity "A" "Team A" "team" (some "B") 0 []

def cycB : EntityProfile := mkEntity "B" "Team B" "team" (some "A") 0 []

def cycMap : EntityMap := [("A", cycA), ("B", cycB)]

theorem cycMap_go_none : ∀ (n : Nat) (cur : Option EntityProfile) (acc : List String),
    (cur = some cycA ∨ cur = some cycB) → ancestryGo cycMap n cur acc = none := by
  intro n
  induction n with
  | zero => rintro cur acc (h | h) <;> subst h <;> rfl
  | succ n ih =>
    rintro cur acc (h | h) <;> subst h
    · have hstep : ancestryGo cycMap (n + 1) (some cycA) acc =
          ancestryGo cycMap n (some cycB) (acc ++ ["B"]) := rfl
      rw [hstep]
      exact ih _ _ (Or.inr rfl)
    · have hstep : ancestryGo cycMap (n + 1) (some cycB) acc =
          ancestryGo cycMap n (some cycA) (acc ++ ["A"]) := rfl
      rw [hstep]
      exact ih _ _ (Or.inl rfl)

/-- C3 fixture: root and middle ancestor both lock the same path. -/
def c3RootRule : EnforcedRule :=
  { id := "lock-root", path := "p", value := Value.scalar (Scalar.bool true),
    enforcement := "locked", reason := "root reason" }

def c3MidRule : EnforcedRule :=
  { id := "lock-mid", path := "p", value := Value.scalar (Scalar.bool true),
    enforcement := "locked", reason := "mid reason" }

def c3Root : EntityProfile := mkEntity "root" "Root Org" "organization" none 0 [c3RootRule]

def c3Mid : EntityProfile := mkEntity "mid" "Mid Dept" "department" (some "root") 1 [c3MidRule]

def c3Leaf : EntityProfile := mkEntity "leaf" "Leaf Team" "team" (some "mid") 2 []

def c3Map : EntityMap := [("root", c3Root), ("mid", c3Mid), ("leaf", c3Leaf)]

/-- C4 fixture: the parent narrows by a `subset` rule but the
grandparent locks the same path. -/
def c4LockRule : EnforcedRule :=
  { id := "lock-models", path := "policies.ai.allowedModels",
    value := Value.list [Scalar.str "gpt-4", Scalar.str "claude-3"],
    enforcement := "locked", reason := "frozen list" }

def c4SubsetRule : EnforcedRule :=
  { id := "subset-models", path := "policies.ai.allowedModels",
    value := Value.list [Scalar.str "gpt-4", Scalar.str "claude-3"],
    enforcement := "subset", reason := "vetted" }

def c4Gp : EntityProfile := mkEntity "gp" "Grandparent" "organization" none 0 [c4LockRule]

def c4Par : EntityProfile := mkEntity "par" "Parent" "department" (some "gp") 1 [c4SubsetRule]

def c4Child : EntityProfile := mkEntity "child" "Child" "team" (some "par") 2 []

def c4Map : EntityMap := [("gp", c4Gp), ("par", c4Par), ("child", c4Child)]

/-- C10 fixture A: an ancestor rule at the dot-prefix path only. -/
def pfxShortRule : EnforcedRule :=
  { id := "lock-data", path := "policies.data", value := Value.scalar (Scalar.bool true),
    enforcement := "locked", reason := "data policy" }

def pfxRootA : EntityProfile := mkEntity "rootA" "Root A" "organization" none 0 [pfxShortRule]

def pfxChildA : EntityProfile := mkEntity "childA" "Child A" "team" (some "rootA") 1 []

def pfxMapA : EntityMap := [("rootA", pfxRootA), ("childA", pfxChildA)]

/-- C10 fixture B: an ancestor rule at the dot-descendant path only. -/
def pfxLongRule : EnforcedRule :=
  { id := "lock-retention", path := "policies.data.retention.maxMonths",
    value := Value.scalar (Scalar.num 36), enforcement := "locked", reason := "retention" }

def pfxRootB : EntityProfile := mkEntity "rootB" "Root B" "organization" none 0 [pfxLongRule]

def pfxChildB : EntityProfile := mkEntity "childB" "Child B" "team" (some "rootB") 1 []

def pfxMapB : EntityMap := [("rootB", pfxRootB), ("childB", pfxChildB)]

/-! ## Claims -/

/-- C1: if any strict ancestor of `entity_id` — at any depth in the
ancestry — holds an enforced rule with enforcement `locked` at `path`,
and the proposed value differs from the locked value under Python
equality, then `validate_policy_change` returns `allowed = false`. -/
theorem C1_locked_propagation (es : EntityMap) (entity_id path : String) (v : Value)
    (fuel : Nat) (anc : List String) (a : String) (e : EntityProfile) (r : EnforcedRule)
    (hanc : get_ancestry es entity_id fuel = some anc)
    (hmem : a ∈ anc) (hne : a ≠ entity_id)
    (he : lookupEntity es a = some e)
    (hr : r ∈ e.enforced_rules)
    (hpath : r.path = path)
    (henf : r.enforcement = "locked")
    (hv : pyEq v r.value = false) :
    ∃ res, validate_policy_change es entity_id path v fuel = some res ∧ res.allowed = false := by
  refine ⟨scanAncestry es entity_id path v anc, by simp [validate_policy_change, hanc], ?_⟩
  rw [scanAncestry_allowed_false_iff]
  refine ⟨a, hmem, hne, e, he, r, hr, ?_⟩
  simp [checkRule, hpath, henf, hv]

theorem C1_locked_propagation_witness :
    ∃ res, validate_policy_change acmeMap "acme-ml-team" "policies.compliance.gdpr"
      (Value.scalar (Scalar.bool false)) 10 = some res ∧ res.allowed = false :=
  C1_locked_propagation acmeMap "acme-ml-team" "policies.compliance.gdpr"
    (Value.scalar (Scalar.bool false)) 10
    ["acme-ml-team", "acme-engineering", "acme-corp"] "acme-corp" acmeCorp gdprRule
    (by decide) (by decide) (by decide) (by decide) (by decide) rfl rfl (by decide)

/-- C2 counterexample: `get_ancestry` has no cycle guard — on the
two-entity parent cycle `cycMap` the walk never finishes, whatever the
iteration budget, so it does not terminate for every entity map. -/
theorem C2_counterexample : ¬ AncestryTerminates cycMap "A" := by
  rintro ⟨n, l, hl⟩
  have hnone : get_ancestry cycMap "A" n = none :=
    cycMap_go_none n (some cycA) ["A"] (Or.inl rfl)
  rw [hnone] at hl
  cases hl

/-- C2 (amended): the ancestry walk carries no cycle defence, so it
terminates only on well-formed data: on every entity map satisfying the
spec's tree invariant — each stored entity's stored parent has strictly
smaller `depth` — `get_ancestry` finishes for every starting id. -/
theorem C2_tree_termination (es : EntityMap) (entity_id : String)
    (hdd : depthDecreasing es = true) : AncestryTerminates es entity_id :=
  get_ancestry_terminates es entity_id hdd

theorem C2_tree_termination_witness :
    depthDecreasing acmeMap = true ∧ AncestryTerminates acmeMap "acme-ml-team" :=
  ⟨by decide, C2_tree_termination acmeMap "acme-ml-team" (by decide)⟩

/-- C3 counterexample: both the middle ancestor and the root would deny
the change at path `p`, but the surfaced reason is the middle (nearest
to the leaf) ancestor's, not the root's — ancestors are checked
nearest-leaf-first, not nearest-root-first. -/
theorem C3_counterexample :
    (checkRule "p" c3Root c3RootRule (Value.scalar (Scalar.bool false))).isSome = true ∧
    (checkRule "p" c3Mid c3MidRule (Value.scalar (Scalar.bool false))).isSome = true ∧
    validate_policy_change c3Map "leaf" "p" (Value.scalar (Scalar.bool false)) 10 =
      some { allowed := false, reason := some "\"p\" is locked by Mid Dept: mid reason" } ∧
    ("\"p\" is locked by Mid Dept: mid reason" : String) ≠
      "\"p\" is locked by Root Org: root reason" := by
  refine ⟨by decide, by decide, by decide, by decide⟩

/-- C3 (amended): `get_ancestry` lists the entity first and the root
last, and `validate_policy_change` iterates that list in order, so
ancestors are checked nearest-LEAF-first: the denial surfaced is the
first denying rule of the first denying strict ancestor in leaf-to-root
order (`pre` holds the ancestry entries nearer the entity, `rpre` the
rules listed before the denying rule). -/
theorem C3_nearest_leaf_first (es : EntityMap) (entity_id path : String) (v : Value)
    (fuel : Nat) (pre post : List String) (a : String) (e : EntityProfile)
    (rpre rpost : List EnforcedRule) (r : EnforcedRule) (reason : String)
    (hanc : get_ancestry es entity_id fuel = some (pre ++ a :: post))
    (hpre : ∀ b ∈ pre, b ≠ entity_id → ∀ e2, lookupEntity es b = some e2 →
      ∀ r2 ∈ e2.enforced_rules, checkRule path e2 r2 v = none)
    (ha : a ≠ entity_id)
    (he : lookupEntity es a = some e)
    (hrules : e.enforced_rules = rpre ++ r :: rpost)
    (hrpre : ∀ x ∈ rpre, checkRule path e x v = none)
    (hr : checkRule path e r v = some reason) :
    validate_policy_change es entity_id path v fuel =
      some { allowed := false, reason := some reason } := by
  have hc : checkEntityRules path e v e.enforced_rules = some reason := by
    rw [hrules]
    exact checkEntityRules_first path e v rpre rpost r reason hrpre hr
  have hscan := scanAncestry_first_denial es entity_id path v pre post a e reason hpre ha he hc
  simp [validate_policy_change, hanc, hscan]

theorem C3_nearest_leaf_first_witness :
    validate_policy_change c3Map "leaf" "p" (Value.scalar (Scalar.bool false)) 10 =
      some { allowed := false, reason := some "\"p\" is locked by Mid Dept: mid reason" } :=
  C3_nearest_leaf_first c3Map "leaf" "p" (Value.scalar (Scalar.bool false)) 10
    ["leaf"] ["root"] "mid" c3Mid [] [] c3MidRule
    "\"p\" is locked by Mid Dept: mid reason"
    (by decide)
    (by intro b hb hbne e2 he2 r2 hr2
        exact absurd (List.mem_singleton.mp hb) hbne)
    (by decide) (by decide) (by decide)
    (by intro x hx; cases hx)
    (by decide)

theorem checkRule_subset_eval (path : String) (e : EntityProfile) (r : EnforcedRule)
    (nl L : List Scalar) (hpath : r.path = path) (henf : r.enforcement = "subset")
    (hval : r.value = Value.list L) :
    checkRule path e r (Value.list nl) =
      (if (nl.filter (fun y => !(L.any (fun u => scalarEq y u)))).isEmpty then none
       else some ("\"" ++ path ++ "\" must be subset of " ++ jsonDumps (Value.list L)
         ++ ". Invalid: " ++ joinItems (nl.filter (fun y => !(L.any (fun u => scalarEq y u)))))) := by
  simp [checkRule, hpath, henf, hval]

/-- C4 counterexample: the parent has a `subset` rule with list `L` at
the path and every element of the proposed list lies in `L`, yet the
change is denied, because the grandparent locks the same path — so the
claim's allow direction does not hold unconditionally. -/
theorem C4_counterexample :
    c4SubsetRule ∈ c4Par.enforced_rules ∧
    c4SubsetRule.enforcement = "subset" ∧
    c4SubsetRule.path = "policies.ai.allowedModels" ∧
    c4SubsetRule.value = Value.list [Scalar.str "gpt-4", Scalar.str "claude-3"] ∧
    get_ancestry c4Map "child" 10 = some ["child", "par", "gp"] ∧
    (∀ x ∈ [Scalar.str "claude-3"],
      ([Scalar.str "gpt-4", Scalar.str "claude-3"].any (fun u => scalarEq x u)) = true) ∧
    validate_policy_change c4Map "child" "policies.ai.allowedModels"
      (Value.list [Scalar.str "claude-3"]) 10 =
      some { allowed := false,
             reason := some "\"policies.ai.allowedModels\" is locked by Grandparent: frozen list" } :=
  ⟨by decide, by decide, by decide, by decide, by decide, by decide, by decide⟩

/-- C4 (amended): when the `subset` rule with list `L` is the only
enforced rule at `path` among the strict ancestors, a proposed list all
of whose elements lie in `L` is allowed, and a proposed list with an
element outside `L` is denied with the invalid elements named in the
reason string. -/
theorem C4_subset_narrowing (es : EntityMap) (entity_id path : String) (fuel : Nat)
    (anc : List String) (a : String) (e : EntityProfile) (r : EnforcedRule) (L : List Scalar)
    (hanc : get_ancestry es entity_id fuel = some anc)
    (hmem : a ∈ anc) (hne : a ≠ entity_id)
    (he : lookupEntity es a = some e)
    (hr : r ∈ e.enforced_rules) (hpath : r.path = path)
    (henf : r.enforcement = "subset") (hval : r.value = Value.list L)
    (honly : ∀ b ∈ anc, b ≠ entity_id → ∀ e2 ∈ (lookupEntity es b).toList,
      ∀ r2 ∈ e2.enforced_rules, r2.path = path →
        r2.enforcement = "subset" ∧ r2.value = Value.list L) (nl : List Scalar) :
    ((∀ x ∈ nl, L.any (fun u => scalarEq x u) = true) →
      validate_policy_change es entity_id path (Value.list nl) fuel =
        some { allowed := true, reason := none }) ∧
    ((∃ x ∈ nl, L.any (fun u => scalarEq x u) = false) →
      validate_policy_change es entity_id path (Value.list nl) fuel =
        some { allowed := false,
               reason := some ("\"" ++ path ++ "\" must be subset of "
                 ++ jsonDumps (Value.list L) ++ ". Invalid: "
                 ++ joinItems (nl.filter (fun x => !(L.any (fun u => scalarEq x u))))) }) := by
  constructor
  · intro hall
    have hnone : ∀ b ∈ anc, b ≠ entity_id → ∀ e2, lookupEntity es b = some e2 →
        ∀ r2 ∈ e2.enforced_rules, checkRule path e2 r2 (Value.list nl) = none := by
      intro b hb hbne e2 he2 r2 hr2
      by_cases hp : r2.path = path
      · obtain ⟨hs, hv⟩ := honly b hb hbne e2 ((mem_option_toList _ _).mpr he2) r2 hr2 hp
        have hfilter : nl.filter (fun x => !(L.any (fun u => scalarEq x u))) = [] := by
          apply List.filter_eq_nil_iff.mpr
          intro x hx
          simp [hall x hx]
        simp [checkRule, hp, hs, hv, hfilter]
      · simp [checkRule, hp]
    simp [validate_policy_change, hanc,
      scanAncestry_all_pass es entity_id path (Value.list nl) anc hnone]
  · rintro ⟨x, hx, hxL⟩
    have hinv : nl.filter (fun y => !(L.any (fun u => scalarEq y u))) ≠ [] :=
      List.ne_nil_of_mem (List.mem_filter.mpr ⟨hx, by simp [hxL]⟩)
    have hrsome : (checkRule path e r (Value.list nl)).isSome := by
      rw [checkRule_subset_eval path e r nl L hpath henf hval]
      rw [if_neg (by simpa [List.isEmpty_iff] using hinv)]
      rfl
    have hfalse : (scanAncestry es entity_id path (Value.list nl) anc).allowed = false :=
      (scanAncestry_allowed_false_iff es entity_id path (Value.list nl) anc).mpr
        ⟨a, hmem, hne, e, he, r, hr, hrsome⟩
    rcases scanAncestry_denial_form es entity_id path (Value.list nl) anc with
      hform | ⟨b, hb, hbne, e2, he2, reason, hcr, heq⟩
    · rw [hform] at hfalse; cases hfalse
    · obtain ⟨r2, hr2, hr2some⟩ := checkEntityRules_some_exists _ _ _ _ _ hcr
      have hp2 : r2.path = path := checkRule_some_path _ _ _ _ _ hr2some
      obtain ⟨hs2, hv2⟩ := honly b hb hbne e2 ((mem_option_toList _ _).mpr he2) r2 hr2 hp2
      have hred : checkRule path e2 r2 (Value.list nl) =
          some ("\"" ++ path ++ "\" must be subset of " ++ jsonDumps (Value.list L)
            ++ ". Invalid: " ++ joinItems (nl.filter (fun y => !(L.any (fun u => scalarEq y u))))) := by
        rw [checkRule_subset_eval path e2 r2 nl L hp2 hs2 hv2]
        rw [if_neg (by simpa [List.isEmpty_iff] using hinv)]
      rw [hred] at hr2some
      cases hr2some
      simp [validate_policy_change, hanc, heq]

theorem C4_subset_narrowing_witness :
    (validate_policy_change acmeMap "acme-ml-team" "policies.ai.allowedModels"
      (Value.list [Scalar.str "claude-3"]) 10 = some { allowed := true, reason := none }) ∧
    (validate_policy_change acmeMap "acme-ml-team" "policies.ai.allowedModels"
      (Value.list [Scalar.str "claude-3", Scalar.str "llama-2"]) 10 =
      some { allowed := false,
             reason := some ("\"policies.ai.allowedModels\" must be subset of "
               ++ jsonDumps (Value.list [Scalar.str "gpt-4", Scalar.str "claude-3",
                   Scalar.str "gemini-pro"])
               ++ ". Invalid: " ++ joinItems ([Scalar.str "claude-3", Scalar.str "llama-2"].filter
                 (fun x => !([Scalar.str "gpt-4", Scalar.str "claude-3",
                   Scalar.str "gemini-pro"].any (fun u => scalarEq x u))))) }) :=
  ⟨(C4_subset_narrowing acmeMap "acme-ml-team" "policies.ai.allowedModels" 10
      ["acme-ml-team", "acme-engineering", "acme-corp"] "acme-corp" acmeCorp modelsRule
      [Scalar.str "gpt-4", Scalar.str "claude-3", Scalar.str "gemini-pro"]
      (by decide) (by decide) (by decide) (by decide) (by decide) rfl rfl rfl
      (by decide) [Scalar.str "claude-3"]).1 (by decide),
   (C4_subset_narrowing acmeMap "acme-ml-team" "policies.ai.allowedModels" 10
      ["acme-ml-team", "acme-engineering", "acme-corp"] "acme-corp" acmeCorp modelsRule
      [Scalar.str "gpt-4", Scalar.str "claude-3", Scalar.str "gemini-pro"]
      (by decide) (by decide) (by decide) (by decide) (by decide) rfl rfl rfl
      (by decide) [Scalar.str "claude-3", Scalar.str "llama-2"]).2 (by decide)⟩

theorem lastRuleAtList_some_mem (rs : List EnforcedRule) (P : String) (r : EnforcedRule)
    (h : lastRuleAtList rs P = some r) : r ∈ rs ∧ r.path = P := by
  induction rs with
  | nil => cases h
  | cons x xs ih =>
    simp only [lastRuleAtList] at h
    cases hl : lastRuleAtList xs P with
    | some r2 =>
      rw [hl] at h
      cases h
      obtain ⟨hmem, hP⟩ := ih hl
      exact ⟨List.mem_cons_of_mem _ hmem, hP⟩
    | none =>
      rw [hl] at h
      by_cases hp : x.path = P
      · rw [if_pos hp] at h
        cases h
        exact ⟨List.mem_cons_self .., hp⟩
      · rw [if_neg hp] at h
        cases h

theorem effAt_isSome_iff (es : EntityMap) (anc : List String) (P : String) :
    (effAt es anc P).isSome ↔ ∃ a ∈ anc, ∃ e, lookupEntity es a = some e ∧
      ∃ r ∈ e.enforced_rules, r.path = P := by
  induction anc with
  | nil => simp [effAt]
  | cons a rest ih =>
    simp only [effAt]
    cases hra : hasRuleAt es a P with
    | true =>
      cases he : lookupEntity es a with
      | none => simp [hasRuleAt, he] at hra
      | some e =>
        simp only [hasRuleAt, he] at hra
        obtain ⟨r, hr, hrP⟩ := List.any_eq_true.mp hra
        have hsome : (lastRuleAtList e.enforced_rules P).isSome :=
          (lastRuleAtList_isSome_iff e.enforced_rules P).mpr ⟨r, hr, by simpa using hrP⟩
        simp only [if_true, he, List.mem_cons]
        constructor
        · intro _
          exact ⟨a, Or.inl rfl, e, he, r, hr, by simpa using hrP⟩
        · intro _
          simpa using hsome
    | false =>
      simp only [Bool.false_eq_true, if_false, ih, List.mem_cons]
      constructor
      · rintro ⟨x, hx, hxs⟩
        exact ⟨x, Or.inr hx, hxs⟩
      · rintro ⟨x, hx | hx, e, he, r, hr, hrP⟩
        · subst hx
          have : e.enforced_rules.any (fun r => r.path == P) = true :=
            List.any_eq_true.mpr ⟨r, hr, by simpa using hrP⟩
          simp [hasRuleAt, he, this] at hra
        · exact ⟨x, hx, e, he, r, hr, hrP⟩

theorem effAt_some_exists (es : EntityMap) (anc : List String) (P : String)
    (eff : EffectivePolicy) (h : effAt es anc P = some eff) :
    ∃ a ∈ anc, ∃ e, lookupEntity es a = some e ∧
      ∃ r ∈ e.enforced_rules, r.path = P ∧ eff = mkEff e r := by
  induction anc with
  | nil => cases h
  | cons a rest ih =>
    simp only [effAt] at h
    cases hra : hasRuleAt es a P with
    | true =>
      rw [hra] at h
      simp only [if_true] at h
      cases he : lookupEntity es a with
      | none => rw [he] at h; cases h
      | some e =>
        simp only [he] at h
        cases hl : lastRuleAtList e.enforced_rules P with
        | none => rw [hl] at h; cases h
        | some r =>
          rw [hl] at h
          rw [show Option.map (mkEff e) (some r) = some (mkEff e r) from rfl] at h
          obtain ⟨hmem, hP⟩ := lastRuleAtList_some_mem e.enforced_rules P r hl
          exact ⟨a, List.mem_cons_self .., e, he, r, hmem, hP, (Option.some_inj.mp h).symm⟩
    | false =>
      rw [hra] at h
      simp only [Bool.false_eq_true, if_false] at h
      obtain ⟨x, hx, rest2⟩ := ih h
      exact ⟨x, List.mem_cons_of_mem _ hx, rest2⟩

/-- C5: the map computed by `compute_effective_policies` binds a path
`P` exactly when some member of the ancestry chain (the entity itself
included) has an enforced rule at `P`; the binding equals `effAt`, i.e.
it carries the value, source display name and enforcement of the (last
listed) rule at `P` of the chain member closest to the leaf, and its
`locked` flag is set iff that rule's enforcement is `"locked"`. -/
theorem C5_effective_policies (es : EntityMap) (entity_id : String) (fuel : Nat)
    (anc : List String) (P : String)
    (hanc : get_ancestry es entity_id fuel = some anc) :
    ∃ m, compute_effective_policies es entity_id fuel = some m ∧
      m P = effAt es anc P ∧
      ((m P).isSome ↔ ∃ a ∈ anc, ∃ e, lookupEntity es a = some e ∧
        ∃ r ∈ e.enforced_rules, r.path = P) ∧
      (∀ eff, m P = some eff → ∃ a ∈ anc, ∃ e, lookupEntity es a = some e ∧
        ∃ r ∈ e.enforced_rules, r.path = P ∧ eff = mkEff e r ∧
        (eff.locked = true ↔ eff.enforcement = "locked")) := by
  refine ⟨computeOverAncestry es anc, by simp [compute_effective_policies, hanc], ?_, ?_, ?_⟩
  · exact computeOverAncestry_lookup es anc P
  · rw [computeOverAncestry_lookup]
    exact effAt_isSome_iff es anc P
  · intro eff heff
    rw [computeOverAncestry_lookup] at heff
    obtain ⟨a, ha, e, he, r, hr, hrP, heq⟩ := effAt_some_exists es anc P eff heff
    refine ⟨a, ha, e, he, r, hr, hrP, heq, ?_⟩
    subst heq
    simp [mkEff]

theorem C5_effective_policies_witness :
    ∃ m, compute_effective_policies acmeMap "acme-ml-team" 10 = some m ∧
      m "policies.data.residency" =
        effAt acmeMap ["acme-ml-team", "acme-engineering", "acme-corp"]
          "policies.data.residency" ∧
      ((m "policies.data.residency").isSome ↔
        ∃ a ∈ ["acme-ml-team", "acme-engineering", "acme-corp"], ∃ e,
          lookupEntity acmeMap a = some e ∧
          ∃ r ∈ e.enforced_rules, r.path = "policies.data.residency") ∧
      (∀ eff, m "policies.data.residency" = some eff →
        ∃ a ∈ ["acme-ml-team", "acme-engineering", "acme-corp"], ∃ e,
          lookupEntity acmeMap a = some e ∧
          ∃ r ∈ e.enforced_rules, r.path = "policies.data.residency" ∧ eff = mkEff e r ∧
          (eff.locked = true ↔ eff.enforcement = "locked")) :=
  C5_effective_policies acmeMap "acme-ml-team" 10
    ["acme-ml-team", "acme-engineering", "acme-corp"] "policies.data.residency" (by decide)

/-- C6 counterexample: for an entity id absent from the store, both
operations succeed — `compute_effective_policies` returns the empty map
and `validate_policy_change` returns `allowed = true` (here even for a
change a root lock would forbid) — instead of failing with `NotFound`;
the functions contain no error path at all. -/
theorem C6_counterexample :
    lookupEntity acmeMap "ghost" = none ∧
    compute_effective_policies acmeMap "ghost" 10 = some emptyPolicyMap ∧
    validate_policy_change acmeMap "ghost" "policies.compliance.gdpr"
      (Value.scalar (Scalar.bool false)) 10 = some { allowed := true, reason := none } :=
  ⟨rfl, rfl, rfl⟩

/-- C6 (amended): the entity-hierarchy operations never signal
`NotFound`: for an entity id that is not present in the store the
ancestry is just `[entity_id]`, `compute_effective_policies` succeeds
with the empty map, and `validate_policy_change` succeeds with
`allowed = true` — an unknown id is indistinguishable from an entity
with no applicable rules. -/
theorem C6_unknown_id_lenient (es : EntityMap) (entity_id : String)
    (h : lookupEntity es entity_id = none) (path : String) (v : Value) (fuel : Nat) :
    get_ancestry es entity_id fuel = some [entity_id] ∧
    compute_effective_policies es entity_id fuel = some emptyPolicyMap ∧
    validate_policy_change es entity_id path v fuel =
      some { allowed := true, reason := none } := by
  have hanc : get_ancestry es entity_id fuel = some [entity_id] := by
    simp [get_ancestry, h, ancestryGo]
  refine ⟨hanc, ?_, ?_⟩
  · have hcomp : computeOverAncestry es [entity_id] = emptyPolicyMap := by
      simp [computeOverAncestry, applyEntity, h]
    simp [compute_effective_policies, hanc, hcomp]
  · have hscan : scanAncestry es entity_id path v [entity_id] =
        { allowed := true, reason := none } := by
      simp [scanAncestry]
    simp [validate_policy_change, hanc, hscan]

theorem C6_unknown_id_lenient_witness :
    get_ancestry acmeMap "ghost" 10 = some ["ghost"] ∧
    compute_effective_policies acmeMap "ghost" 10 = some emptyPolicyMap ∧
    validate_policy_change acmeMap "ghost" "policies.security.encryption.minBits"
      (Value.scalar (Scalar.num 128)) 10 = some { allowed := true, reason := none } :=
  C6_unknown_id_lenient acmeMap "ghost" (by decide)
    "policies.security.encryption.minBits" (Value.scalar (Scalar.num 128)) 10

/-- C7: if every strict-ancestor enforced rule at `path` carries one of
the reserved enforcement kinds `additive`, `narrowable` or
`overridable`, the change is allowed — `validate_policy_change` has no
validation branch for these kinds, so they are accepted unenforced (in
particular `additive` gets no add-only check). -/
theorem C7_reserved_enforcements (es : EntityMap) (entity_id path : String) (v : Value)
    (fuel : Nat) (anc : List String)
    (hanc : get_ancestry es entity_id fuel = some anc)
    (h : ∀ a ∈ anc, a ≠ entity_id → ∀ e ∈ (lookupEntity es a).toList,
      ∀ r ∈ e.enforced_rules, r.path = path →
        r.enforcement = "additive" ∨ r.enforcement = "narrowable" ∨
          r.enforcement = "overridable") :
    validate_policy_change es entity_id path v fuel =
      some { allowed := true, reason := none } := by
  have hall : ∀ a ∈ anc, a ≠ entity_id → ∀ e, lookupEntity es a = some e →
      ∀ r ∈ e.enforced_rules, checkRule path e r v = none := by
    intro a ha hne e he r hr
    by_cases hp : r.path = path
    · rcases h a ha hne e ((mem_option_toList _ _).mpr he) r hr hp with h1 | h1 | h1 <;>
        simp [checkRule, hp, h1]
    · simp [checkRule, hp]
  simp [validate_policy_change, hanc, scanAncestry_all_pass es entity_id path v anc hall]

theorem C7_reserved_enforcements_witness :
    validate_policy_change acmeMap "acme-ml-team" "policies.ai.blockedModels"
      (Value.list [Scalar.str "legacy-gpt-*", Scalar.str "older-model"]) 10 =
      some { allowed := true, reason := none } :=
  C7_reserved_enforcements acmeMap "acme-ml-team" "policies.ai.blockedModels"
    (Value.list [Scalar.str "legacy-gpt-*", Scalar.str "older-model"]) 10
    ["acme-ml-team", "acme-engineering", "acme-corp"] (by decide) (by decide)

/-- C8: denial is exactly the existence, among the strict ancestors in
the ancestry, of an enforced rule at `path` whose check rejects
`new_value` (`checkRule` returns a reason), and the resulting
allowed/denied boolean is invariant under permuting the order in which
ancestors are scanned — only the surfaced reason depends on the order. -/
theorem C8_denial_characterisation (es : EntityMap) (entity_id path : String) (v : Value)
    (fuel : Nat) (anc : List String)
    (hanc : get_ancestry es entity_id fuel = some anc) :
    ∃ res, validate_policy_change es entity_id path v fuel = some res ∧
      (res.allowed = false ↔ ExistsDenial es entity_id path v anc) ∧
      (∀ anc2, anc.Perm anc2 →
        (scanAncestry es entity_id path v anc2).allowed = res.allowed) := by
  refine ⟨scanAncestry es entity_id path v anc, by simp [validate_policy_change, hanc],
    scanAncestry_allowed_false_iff es entity_id path v anc, ?_⟩
  intro anc2 hperm
  have h1 := scanAncestry_allowed_false_iff es entity_id path v anc
  have h2 := scanAncestry_allowed_false_iff es entity_id path v anc2
  have hiff : ExistsDenial es entity_id path v anc2 ↔ ExistsDenial es entity_id path v anc := by
    unfold ExistsDenial
    constructor
    · rintro ⟨a, ha, hrest⟩
      exact ⟨a, hperm.mem_iff.mpr ha, hrest⟩
    · rintro ⟨a, ha, hrest⟩
      exact ⟨a, hperm.mem_iff.mp ha, hrest⟩
  have hbc : ∀ b c : Bool, (b = false ↔ c = false) → b = c := by decide
  exact hbc _ _ (h2.trans (hiff.trans h1.symm))

theorem C8_denial_characterisation_witness :
    ∃ res, validate_policy_change acmeMap "acme-ml-team"
      "policies.security.encryption.minBits" (Value.scalar (Scalar.num 128)) 10 =
        some res ∧
      (res.allowed = false ↔ ExistsDenial acmeMap "acme-ml-team"
        "policies.security.encryption.minBits" (Value.scalar (Scalar.num 128))
        ["acme-ml-team", "acme-engineering", "acme-corp"]) ∧
      (∀ anc2, List.Perm ["acme-ml-team", "acme-engineering", "acme-corp"] anc2 →
        (scanAncestry acmeMap "acme-ml-team" "policies.security.encryption.minBits"
          (Value.scalar (Scalar.num 128)) anc2).allowed = res.allowed) :=
  C8_denial_characterisation acmeMap "acme-ml-team" "policies.security.encryption.minBits"
    (Value.scalar (Scalar.num 128)) 10 ["acme-ml-team", "acme-engineering", "acme-corp"]
    (by decide)

/-- C9: type-mismatched values bypass enforcement: a value that is not
numeric (not a Python int/float — bool counts as int) can never be
denied by a `min` or `max` rule, a value that is not a list — or a rule
whose own value is not a list — can never be denied by a `subset` rule,
and when every strict-ancestor rule at `path` is of one of those
mismatched shapes the change is allowed, e.g. a string submitted
against a numeric minimum. -/
theorem C9_type_mismatch_bypass (es : EntityMap) (entity_id path : String) (v : Value)
    (fuel : Nat) (anc : List String)
    (hanc : get_ancestry es entity_id fuel = some anc) :
    (∀ e r, (r.enforcement = "min" ∨ r.enforcement = "max") → isNumeric v = false →
      checkRule path e r v = none) ∧
    (∀ e r, r.enforcement = "subset" → (isList v = false ∨ isList r.value = false) →
      checkRule path e r v = none) ∧
    ((∀ a ∈ anc, a ≠ entity_id → ∀ e ∈ (lookupEntity es a).toList,
        ∀ r ∈ e.enforced_rules, r.path = path →
          (((r.enforcement = "min" ∨ r.enforcement = "max") ∧ isNumeric v = false) ∨
           (r.enforcement = "subset" ∧ (isList v = false ∨ isList r.value = false)))) →
      validate_policy_change es entity_id path v fuel =
        some { allowed := true, reason := none }) := by
  have part1 : ∀ e r, (r.enforcement = "min" ∨ r.enforcement = "max") →
      isNumeric v = false → checkRule path e r v = none := by
    intro e r henf hnum
    by_cases hp : r.path = path
    · rcases henf with h1 | h1 <;> simp [checkRule, hp, h1, hnum]
    · simp [checkRule, hp]
  have part2 : ∀ e r, r.enforcement = "subset" →
      (isList v = false ∨ isList r.value = false) → checkRule path e r v = none := by
    intro e r henf hv
    by_cases hp : r.path = path
    · rcases hv with hv | hv
      · cases v with
        | scalar s => cases hrv : r.value <;> simp [checkRule, hp, henf, hrv]
        | list xs => simp [isList] at hv
      · cases hrv : r.value with
        | scalar s => cases v <;> simp [checkRule, hp, henf, hrv]
        | list xs => rw [hrv] at hv; simp [isList] at hv
    · simp [checkRule, hp]
  refine ⟨part1, part2, ?_⟩
  intro h
  have hall : ∀ a ∈ anc, a ≠ entity_id → ∀ e, lookupEntity es a = some e →
      ∀ r ∈ e.enforced_rules, checkRule path e r v = none := by
    intro a ha hne e he r hr
    by_cases hp : r.path = path
    · rcases h a ha hne e ((mem_option_toList _ _).mpr he) r hr hp with ⟨henf, hnum⟩ | ⟨henf, hv⟩
      · exact part1 e r henf hnum
      · exact part2 e r henf hv
    · simp [checkRule, hp]
  simp [validate_policy_change, hanc, scanAncestry_all_pass es entity_id path v anc hall]

theorem C9_type_mismatch_bypass_witness :
    validate_policy_change acmeMap "acme-ml-team" "policies.security.encryption.minBits"
      (Value.scalar (Scalar.str "very-high")) 10 = some { allowed := true, reason := none } :=
  (C9_type_mismatch_bypass acmeMap "acme-ml-team" "policies.security.encryption.minBits"
    (Value.scalar (Scalar.str "very-high")) 10 ["acme-ml-team", "acme-engineering", "acme-corp"]
    (by decide)).2.2 (by decide)

/-- C10: an enforced rule constrains a change only when its `path`
string equals the changed path exactly: any rule whose path differs —
including a dot-prefix such as `policies.data` against a change at
`policies.data.retention.maxMonths`, and vice versa — yields no check,
and if no strict-ancestor rule has exactly the changed path the change
is allowed. -/
theorem C10_exact_path_match (es : EntityMap) (entity_id path : String) (v : Value)
    (fuel : Nat) (anc : List String)
    (hanc : get_ancestry es entity_id fuel = some anc) :
    (∀ e r, r.path ≠ path → checkRule path e r v = none) ∧
    ((∀ a ∈ anc, a ≠ entity_id → ∀ e ∈ (lookupEntity es a).toList,
        ∀ r ∈ e.enforced_rules, r.path ≠ path) →
      validate_policy_change es entity_id path v fuel =
        some { allowed := true, reason := none }) := by
  constructor
  · intro e r hp
    simp [checkRule, hp]
  · intro h
    have hall : ∀ a ∈ anc, a ≠ entity_id → ∀ e, lookupEntity es a = some e →
        ∀ r ∈ e.enforced_rules, checkRule path e r v = none := by
      intro a ha hne e he r hr
      simp [checkRule, h a ha hne e ((mem_option_toList _ _).mpr he) r hr]
    simp [validate_policy_change, hanc, scanAncestry_all_pass es entity_id path v anc hall]

theorem C10_exact_path_match_witness :
    (validate_policy_change pfxMapA "childA" "policies.data.retention.maxMonths"
      (Value.scalar (Scalar.num 999)) 10 = some { allowed := true, reason := none }) ∧
    (validate_policy_change pfxMapB "childB" "policies.data"
      (Value.scalar (Scalar.bool false)) 10 = some { allowed := true, reason := none }) :=
  ⟨(C10_exact_path_match pfxMapA "childA" "policies.data.retention.maxMonths"
      (Value.scalar (Scalar.num 999)) 10 ["childA", "rootA"] (by decide)).2 (by decide),
   (C10_exact_path_match pfxMapB "childB" "policies.data"
      (Value.scalar (Scalar.bool false)) 10 ["childB", "rootB"] (by decide)).2 (by decide)⟩
